import Mathlib

/-!
Verification development for `monitor.py` of the website-monitor repository.

The Python source is shallowly embedded below.  String manipulation is
modelled over `List Char` with structural recursion so that every definition
is executable and kernel-reducible.  External collaborators (the `requests`
HTTP client, BeautifulSoup parsing, `hashlib.sha256`, `urllib.parse.urljoin`)
are modelled as explicit inputs or parameters; the repository's own logic is
translated statement by statement.

Note: the source file's bytes for the intended em-dash separator are the
three-character mojibake sequence U+201A U+00C4 U+00EE (rendered "‚Äî"),
both in `clean_match_title_from_slug`'s docstring and in its f-strings.
The embedding reproduces those exact characters.

Case mappings (`Char.toLower`, `Char.toUpper`, `Char.isAlpha`, digits) are
ASCII, which coincides with Python on all slug/URL inputs considered here.
-/

/-- Python `s.split(sep)` for a single-character separator.  Always returns a
non-empty list; `"" .split(c) = [""]`. -/
def splitOnChar (sep : Char) : List Char → List (List Char)
  | [] => [[]]
  | c :: cs =>
    match splitOnChar sep cs with
    | [] => [[]]
    | g :: gs => if c = sep then [] :: g :: gs else (c :: g) :: gs

/-- Python `slug.strip("/")`: remove leading and trailing `'/'` characters. -/
def stripSlashes (s : List Char) : List Char :=
  ((s.dropWhile (fun c => c = '/')).reverse.dropWhile (fun c => c = '/')).reverse

/-- Python `re.sub(r"-\d+$", "", slug)`: strip one trailing `-<digits>` id. -/
def stripTrailingId (s : List Char) : List Char :=
  let r := s.reverse
  let ds := r.takeWhile Char.isDigit
  if ds ≠ [] ∧ (r.drop ds.length).head? = some '-' then
    (r.drop (ds.length + 1)).reverse
  else s

/-- Python `s.isdigit()` (ASCII): non-empty and all digit characters. -/
def pyIsDigit (s : List Char) : Bool :=
  !s.isEmpty && s.all Char.isDigit

/-- One step of Python `str.title()`: an alphabetic character is uppercased
when the previous character is not alphabetic, lowercased otherwise. -/
def titleAux : Bool → List Char → List Char
  | _, [] => []
  | prev, c :: cs =>
    if c.isAlpha then
      (if prev then c.toLower else c.toUpper) :: titleAux true cs
    else
      c :: titleAux false cs

/-- Python `str.title()` (ASCII-cased characters). -/
def pyTitle (s : List Char) : List Char := titleAux false s

/-- Fuel-driven core of Python `str.replace` (leftmost, non-overlapping).
Each step consumes at least one character, so fuel `s.length` suffices. -/
def replaceAux (pat repl : List Char) : Nat → List Char → List Char
  | 0, s => s
  | _ + 1, [] => []
  | fuel + 1, c :: cs =>
    if pat.isPrefixOf (c :: cs) then
      repl ++ replaceAux pat repl fuel ((c :: cs).drop pat.length)
    else
      c :: replaceAux pat repl fuel cs

/-- Python `s.replace(pat, repl)` for a non-empty pattern. -/
def pyReplace (s pat repl : List Char) : List Char :=
  if pat = [] then s else replaceAux pat repl s.length s

/-- Word character for the regex `\b` boundary (ASCII `\w`). -/
def isWordChar (c : Char) : Bool := c.isAlphanum || c = '_'

/-- Try to match `liverpool\s+fc\b` case-insensitively at the head of the
list, returning the remainder after the match. -/
def matchLivFC (s : List Char) : Option (List Char) :=
  if (s.take 9).map Char.toLower = ['l','i','v','e','r','p','o','o','l'] then
    let rest := s.drop 9
    let ws := rest.takeWhile Char.isWhitespace
    if ws = [] then none
    else
      let rest2 := rest.drop ws.length
      if (rest2.take 2).map Char.toLower = ['f','c'] then
        let rest3 := rest2.drop 2
        match rest3.head? with
        | some c => if isWordChar c then none else some rest3
        | none => some rest3
      else none
  else none

/-- Fuel-driven scan for `re.sub(r"\bliverpool\s+fc\b", "LFC", s, re.I)`:
at each position with a word boundary, try the match and substitute; every
step consumes at least one character. -/
def subLFCAux : Nat → Option Char → List Char → List Char
  | 0, _, s => s
  | _ + 1, _, [] => []
  | fuel + 1, prev, c :: cs =>
    let boundary := match prev with
      | none => true
      | some p => !isWordChar p
    if boundary then
      match matchLivFC (c :: cs) with
      | some rest => 'L' :: 'F' :: 'C' :: subLFCAux fuel (some 'C') rest
      | none => c :: subLFCAux fuel (some c) cs
    else
      c :: subLFCAux fuel (some c) cs

/-- Python `re.sub(r"\bliverpool\s+fc\b", "LFC", s, flags=re.IGNORECASE)`. -/
def subLFC (s : List Char) : List Char := subLFCAux s.length none s

/-- Python `re.match(r"^(\d{2})(\d{2})(am|pm)$", s)`: the hour as an
integer, the minute digits, and the am/pm suffix. -/
def matchTime (s : List Char) : Option (Nat × List Char × List Char) :=
  match s with
  | [d1, d2, d3, d4, a, m] =>
    if d1.isDigit && d2.isDigit && d3.isDigit && d4.isDigit &&
        (a = 'a' || a = 'p') && m = 'm' then
      some ((d1.toNat - '0'.toNat) * 10 + (d2.toNat - '0'.toNat), [d3, d4], [a, m])
    else none
  | _ => none

/-- Decimal rendering of a natural number below 100, as Python `str(int)`
renders the matched hour. -/
def natDigits2 (n : Nat) : List Char :=
  if n < 10 then [Char.ofNat ('0'.toNat + n)]
  else [Char.ofNat ('0'.toNat + n / 10), Char.ofNat ('0'.toNat + n % 10)]

/-- The month abbreviation set of the source. -/
def monthSet : List (List Char) :=
  [['j','a','n'], ['f','e','b'], ['m','a','r'], ['a','p','r'], ['m','a','y'],
   ['j','u','n'], ['j','u','l'], ['a','u','g'], ['s','e','p'], ['o','c','t'],
   ['n','o','v'], ['d','e','c']]

/-- The date-pattern scan: first `i` in `range(len(parts) - 2)` with
`parts[i].isdigit() and parts[i+1].lower() in month_set and
parts[i+2].isdigit() and len(parts[i+2]) == 4`. -/
def findDateIdx (parts : List (List Char)) : Option Nat :=
  (List.range (parts.length - 2)).find? (fun i =>
    pyIsDigit (parts.getD i []) &&
    monthSet.contains ((parts.getD (i + 1) []).map Char.toLower) &&
    pyIsDigit (parts.getD (i + 2) []) &&
    (parts.getD (i + 2) []).length = 4)

/-- The separator the source's f-strings actually contain: a space, the
mojibake sequence U+201A U+00C4 U+00EE, and a space. -/
def emSep : List Char := [' ', Char.ofNat 0x201A, Char.ofNat 0x00C4, Char.ofNat 0x00EE, ' ']

/-- Lines 38-41 of the source: join the team tokens with spaces, expand
`" v "` and `" V "` to `" vs "`, collapse `liverpool fc` to `LFC`,
title-case, and re-fix the abbreviation's casing. -/
def teamsRender (teams_part : List (List Char)) : List Char :=
  pyReplace
    (pyTitle (subLFC
      (pyReplace
        (pyReplace (List.intercalate [' '] teams_part)
          [' ', 'v', ' '] [' ', 'v', 's', ' '])
        [' ', 'V', ' '] [' ', 'v', 's', ' '])))
    ['L', 'f', 'c'] ['L', 'F', 'C']

/-- Lines 43-50 of the source: the lowercased time token is reformatted as
`H:MMam/pm` when it matches the time regex (hour `00` becomes `12`), then
left-stripped of `'0'`; otherwise it is kept unchanged. -/
def renderTime (ct : List Char) : List Char :=
  match matchTime ct with
  | some (hh, mm, ap) =>
    (if hh ≠ 0 then natDigits2 hh ++ ':' :: (mm ++ ap)
     else '1' :: '2' :: ':' :: (mm ++ ap)).dropWhile (fun c => c = '0')
  | none => ct

/-- Embedding of `clean_match_title_from_slug` (source lines 9-55).  Operations
that can raise in Python (sequence indexing) are modelled in `Option`, so
totality of the source function is the statement that this never returns
`none`. -/
def clean_match_title_from_slug (slug : String) : Option String :=
  match (splitOnChar '/' (stripSlashes slug.toList)).getLast? with
  | none => none
  | some seg =>
    let s1 := stripTrailingId seg
    let parts := splitOnChar '-' s1
    match findDateIdx parts with
    | none => some (String.mk (pyTitle (s1.map (fun c => if c = '-' then ' ' else c))))
    | some i =>
      match parts.get? i, parts.get? (i + 1) with
      | some day, some mon =>
        match (if parts.length > i + 3 then parts.get? (i + 3) else some []) with
        | none => none
        | some time_part =>
          let teams_str := teamsRender (parts.take i)
          let cleaned_time := renderTime (time_part.map Char.toLower)
          let date_str := day ++ ' ' :: pyTitle mon
          if cleaned_time ≠ [] then
            some (String.mk (teams_str ++ emSep ++ date_str ++ emSep ++ cleaned_time))
          else
            some (String.mk (teams_str ++ emSep ++ date_str))
      | _, _ => none

example : clean_match_title_from_slug "marseille-v-liverpool-fc-21-jan-2026-0800pm-524"
    = some "Marseille Vs LFC ‚Äî 21 Jan ‚Äî 8:00pm" := by decide

example : clean_match_title_from_slug "some-random-page-name"
    = some "Some Random Page Name" := by decide

example : clean_match_title_from_slug "a-v-b-21-jan-2026-0000am-1"
    = some "A Vs B ‚Äî 21 Jan ‚Äî 12:00am" := by decide

example : clean_match_title_from_slug "a-v-b-21-jan-2026-evening"
    = some "A Vs B ‚Äî 21 Jan ‚Äî evening" := by decide

/-- The HTML-parsing collaborator's view of one fetched page: the raw
response body text, and for each CSS selector the stripped text of the
matched element when `select_one` finds one (`BeautifulSoup` behaviour). -/
structure Page where
  text : String
  selectText : String → Option String

/-- Embedding of `get_page_content` (source lines 94-119): a failed fetch yields
`None`; with no selector the raw response text is returned; with a selector
the element's stripped text is returned when the selector matches,
otherwise the raw response text (fallback with a warning). -/
def get_page_content (fetched : Option Page) (selector : Option String) : Option String :=
  match fetched with
  | none => none
  | some page =>
    match selector with
    | none => some page.text
    | some sel =>
      match page.selectText sel with
      | some t => some t
      | none => some page.text

/-- Python `str.strip()` on one line: drop leading and trailing whitespace. -/
def trimWS (s : List Char) : List Char :=
  ((s.dropWhile Char.isWhitespace).reverse.dropWhile Char.isWhitespace).reverse

/-- Modelled from the spec: the Text Normalizer contract (spec section 4.1),
which is absent from the source — "split into lines, each trimmed, empty
lines dropped, and the result rejoined with a single newline separator". -/
def specNormalize (s : String) : String :=
  String.mk (List.intercalate ['\n']
    (((splitOnChar '\n' s.toList).map trimWS).filter (fun l => l ≠ [])))

/-- Python `pattern in s`: substring containment. -/
def containsSubstr (s pat : String) : Bool :=
  (List.range (s.toList.length + 1)).any (fun i => pat.toList.isPrefixOf (s.toList.drop i))

/-- Modelled from the spec: the origin (`scheme://authority`) of an absolute
URL, the part `urllib.parse.urljoin` keeps when resolving a href that
begins with `/` (spec section 4.4, "resolved to absolute form against
pageUrl's origin"). -/
def breakOnScheme : List Char → Option (List Char × List Char)
  | [] => none
  | c :: cs =>
    if [':', '/', '/'].isPrefixOf (c :: cs) then some ([], (c :: cs).drop 3)
    else
      match breakOnScheme cs with
      | some (pre, post) => some (c :: pre, post)
      | none => none

/-- Modelled from the spec: `scheme://authority` of the base URL. -/
def origin (url : String) : String :=
  match breakOnScheme url.toList with
  | some (pre, post) =>
    String.mk (pre ++ ':' :: '/' :: '/' :: post.takeWhile (fun c => c ≠ '/'))
  | none => ""

/-- Modelled from the spec: `urllib.parse.urljoin(base, href)` for a href
beginning with `/` — the base URL's origin followed by the href. -/
def urljoin (base href : String) : String := origin base ++ href

/-- Lines 140-143 of the source: hrefs beginning with `/` are resolved via
`urljoin` against the page URL; all others are kept as-is. -/
def resolveHref (url href : String) : String :=
  if href.toList.head? = some '/' then urljoin url href else href

/-- Embedding of `discover_links` (source lines 125-153), over the anchor hrefs the
parsing collaborator enumerates: resolve each href, keep it when it
contains the pattern and has not been collected yet. -/
def discover_links (url link_pattern : String) (hrefs : List String) : List String :=
  hrefs.foldl (fun links href =>
    let r := resolveHref url href
    if containsSubstr r link_pattern ∧ r ∉ links then links ++ [r] else links) []

/-- Keep the first occurrence of each element not already seen — the shape
`discover_links` is proved to have. -/
def dedupKeepFirst (seen : List String) : List String → List String
  | [] => []
  | a :: l => if a ∈ seen then dedupKeepFirst seen l else a :: dedupKeepFirst (seen ++ [a]) l

example :
    discover_links "https://www.liverpoolfc.com/tickets/tickets-availability"
      "/tickets/tickets-availability/"
      ["/tickets/tickets-availability/foo-1", "https://other.com/x",
       "/tickets/tickets-availability/bar-2", "/tickets/tickets-availability/foo-1"]
      = ["https://www.liverpoolfc.com/tickets/tickets-availability/foo-1",
         "https://www.liverpoolfc.com/tickets/tickets-availability/bar-2"] := by decide

/-- The persisted per-URL record the source builds at lines 227-232:
`{name, hash, last_checked, selector}` — there is no snapshot field. -/
structure PageRecord where
  name : String
  hash : String
  last_checked : String
  selector : Option String
deriving DecidableEq

/-- The change record the source builds at lines 237-241:
`{name, url, previous_check}` — there is no diff field. -/
structure ChangeEvent where
  name : String
  url : String
  previous_check : String
deriving DecidableEq

/-- One entry of `urls_to_check` (lines 198-210). -/
structure Target where
  url : String
  name : String
  selector : Option String
deriving DecidableEq

/-- Python `dict` lookup on the URL-keyed state. -/
def lookupUrl (url : String) : List (String × PageRecord) → Option PageRecord
  | [] => none
  | (u, r) :: rest => if u = url then some r else lookupUrl url rest

/-- Python `dict` assignment `current_data[url] = record`. -/
def updateRecord (data : List (String × PageRecord)) (url : String) (r : PageRecord) :
    List (String × PageRecord) :=
  if url ∈ data.map Prod.fst then
    data.map (fun p => if p.1 = url then (url, r) else p)
  else data ++ [(url, r)]

/-- The body of the per-target loop of `monitor_websites`, lines 215-246.
`hashFn` models `get_content_hash` (a sha256 hex digest, used only through
equality); `now` models `datetime.now().isoformat()`.  A target whose fetch
failed (`content is None`) leaves the accumulator unchanged; otherwise a
record is stored and, when the URL is in the prior state with a different
hash, a change entry `{name, url, previous_check}` is appended. -/
def checkStep (hashFn : String → String) (now : String)
    (previous : List (String × PageRecord))
    (acc : List (String × PageRecord) × List ChangeEvent)
    (tc : Target × Option String) :
    List (String × PageRecord) × List ChangeEvent :=
  match tc.2 with
  | none => acc
  | some content =>
    let current_hash := hashFn content
    let newRecord : PageRecord :=
      { name := tc.1.name, hash := current_hash, last_checked := now, selector := tc.1.selector }
    let data := updateRecord acc.1 tc.1.url newRecord
    match lookupUrl tc.1.url previous with
    | some prevRec =>
      if prevRec.hash ≠ current_hash then
        (data, acc.2 ++ [{ name := tc.1.name, url := tc.1.url, previous_check := prevRec.last_checked }])
      else (data, acc.2)
    | none => (data, acc.2)

/-- The check phase of `monitor_websites` (lines 183-246) over the concrete
target list with each target's fetch outcome: the new state and the list of
detected changes. -/
def monitor_websites (hashFn : String → String) (now : String)
    (previous : List (String × PageRecord))
    (targets : List (Target × Option String)) :
    List (String × PageRecord) × List ChangeEvent :=
  targets.foldl (checkStep hashFn now previous) ([], [])

/-- The change entry a single target contributes, read off lines 234-246:
`none` on fetch failure, on a first observation, and on an unchanged hash. -/
def eventFor (hashFn : String → String) (previous : List (String × PageRecord))
    (tc : Target × Option String) : Option ChangeEvent :=
  match tc.2 with
  | none => none
  | some content =>
    match lookupUrl tc.1.url previous with
    | none => none
    | some prevRec =>
      if prevRec.hash ≠ hashFn content then
        some { name := tc.1.name, url := tc.1.url, previous_check := prevRec.last_checked }
      else none

/-! ## Helper lemmas -/

theorem lookupUrl_map_update (url : String) (r : PageRecord) :
    ∀ data : List (String × PageRecord), url ∈ data.map Prod.fst →
      lookupUrl url (data.map (fun p => if p.1 = url then (url, r) else p)) = some r := by
  intro data
  induction data with
  | nil => intro h; simp at h
  | cons p ps ih =>
    obtain ⟨u, v⟩ := p
    intro h
    rw [List.map_cons]
    by_cases hp : u = url
    · rw [show (if (u, v).1 = url then (url, r) else (u, v)) = (url, r) from if_pos hp]
      simp [lookupUrl]
    · rw [show (if (u, v).1 = url then (url, r) else (u, v)) = (u, v) from if_neg hp]
      have h' : url ∈ ps.map Prod.fst := by
        rw [List.map_cons, List.mem_cons] at h
        rcases h with h | h
        · exact absurd h.symm hp
        · exact h
      simpa [lookupUrl, hp] using ih h'

theorem lookupUrl_append_new (url : String) (r : PageRecord) :
    ∀ data : List (String × PageRecord), url ∉ data.map Prod.fst →
      lookupUrl url (data ++ [(url, r)]) = some r := by
  intro data
  induction data with
  | nil => intro _; simp [lookupUrl]
  | cons p ps ih =>
    obtain ⟨u, v⟩ := p
    intro h
    rw [List.map_cons, List.mem_cons] at h
    push_neg at h
    have hp : u ≠ url := fun hc => h.1 hc.symm
    simpa [lookupUrl, hp] using ih h.2

theorem lookupUrl_updateRecord (url : String) (data : List (String × PageRecord))
    (r : PageRecord) :
    lookupUrl url (updateRecord data url r) = some r := by
  unfold updateRecord
  split
  · exact lookupUrl_map_update url r data (by assumption)
  · exact lookupUrl_append_new url r data (by assumption)

theorem checkStep_fst (hashFn : String → String) (now : String)
    (previous : List (String × PageRecord))
    (acc : List (String × PageRecord) × List ChangeEvent)
    (t : Target) (content : String) :
    (checkStep hashFn now previous acc (t, some content)).1
      = updateRecord acc.1 t.url
          { name := t.name, hash := hashFn content, last_checked := now,
            selector := t.selector } := by
  unfold checkStep
  cases h : lookupUrl t.url previous with
  | none => rfl
  | some prevRec =>
    by_cases hh : prevRec.hash ≠ hashFn content
    · simp [h, hh]
    · simp [h, hh]

theorem checkStep_snd (hashFn : String → String) (now : String)
    (previous : List (String × PageRecord))
    (acc : List (String × PageRecord) × List ChangeEvent)
    (tc : Target × Option String) :
    (checkStep hashFn now previous acc tc).2
      = acc.2 ++ (eventFor hashFn previous tc).toList := by
  obtain ⟨t, c⟩ := tc
  cases c with
  | none => simp [checkStep, eventFor]
  | some content =>
    unfold checkStep eventFor
    cases h : lookupUrl t.url previous with
    | none => simp
    | some prevRec =>
      by_cases hh : prevRec.hash ≠ hashFn content
      · simp [hh]
      · simp [hh]

theorem monitor_foldl_events (hashFn : String → String) (now : String)
    (previous : List (String × PageRecord)) :
    ∀ (targets : List (Target × Option String))
      (acc : List (String × PageRecord) × List ChangeEvent),
      (targets.foldl (checkStep hashFn now previous) acc).2
        = acc.2 ++ targets.filterMap (eventFor hashFn previous) := by
  intro targets
  induction targets with
  | nil => intro acc; simp
  | cons tc ts ih =>
    intro acc
    rw [List.foldl_cons, ih, List.filterMap_cons, checkStep_snd]
    cases h : eventFor hashFn previous tc <;> simp [h]

/-! ## Claim theorems -/

/-- A fetched page whose body contains a blank line, with a selector map on
which no selector matches. -/
def rawPage : Page := { text := "a\n\nb", selectText := fun _ => none }

/-- C1, counterexample.  The claim is false: with no selector the text used
for fingerprinting is the raw markup verbatim.  For the raw markup
`"a\n\nb"` the produced text still contains a blank line, and the spec's
normalization does not fix it (so it is not normalized, let alone a
normalization fixed point). -/
theorem get_page_content_not_normalized :
    get_page_content (some rawPage) none = some "a\n\nb"
    ∧ (splitOnChar '\n' ("a\n\nb" : String).toList).contains [] = true
    ∧ specNormalize "a\n\nb" ≠ "a\n\nb" :=
  ⟨rfl, by decide, by decide⟩

/-- C1, amended.  The function `get_page_content` performs no line normalization at all:
whenever no selector is supplied, or the supplied selector matches no
element, the raw response text is returned verbatim (so blank lines and
per-line whitespace survive); only a matching selector yields the
collaborator's stripped element text. -/
theorem get_page_content_raw (p : Page) (selector : Option String)
    (h : selector = none ∨ ∃ sel, selector = some sel ∧ p.selectText sel = none) :
    get_page_content (some p) selector = some p.text := by
  rcases h with h | ⟨sel, hsel, hnone⟩
  · subst h; rfl
  · subst hsel; simp [get_page_content, hnone]

/-- Witness for `get_page_content_raw` at the concrete page `rawPage`. -/
theorem get_page_content_raw_witness :
    get_page_content (some rawPage) none = some rawPage.text :=
  get_page_content_raw rawPage none (Or.inl rfl)

/-- A content string longer than the 12,000-character cap the claim posits. -/
def bigContent : String := String.mk (List.replicate 12001 'a')

/-- The cap the claim posits: the first 12,000 characters. -/
def cap12000 (s : String) : String := String.mk (s.toList.take 12000)

/-- C2, counterexample.  Running the monitor (with the fingerprint function
instantiated to `id`) on a 12,001-character content stores a record whose
hash is the fingerprint of the FULL content, which differs from the
fingerprint of the 12,000-character capped content — so no capping happens
before hashing; moreover the stored record has only the fields
`{name, hash, last_checked, selector}`, with no snapshot at all. -/
theorem stored_hash_uncapped :
    lookupUrl "u" (monitor_websites id "t1" []
        [({ url := "u", name := "n", selector := none }, some bigContent)]).1
      = some { name := "n", hash := bigContent, last_checked := "t1", selector := none }
    ∧ bigContent ≠ cap12000 bigContent := by
  constructor
  · rfl
  · intro h
    have h2 : List.replicate 12001 'a' = (List.replicate 12001 'a').take 12000 :=
      congrArg String.data h
    have h3 := congrArg List.length h2
    rw [List.length_take, List.length_replicate] at h3
    omega

/-- C2, amended.  For every page processed in a run, the content is hashed
in full, with no length cap, and the persisted record for the page's URL is
exactly `{name, hash of the full content, timestamp, selector}` — it
contains no snapshot field at all. -/
theorem checkStep_stores_full_hash (hashFn : String → String) (now : String)
    (previous : List (String × PageRecord))
    (acc : List (String × PageRecord) × List ChangeEvent)
    (t : Target) (content : String) :
    lookupUrl t.url (checkStep hashFn now previous acc (t, some content)).1
      = some { name := t.name, hash := hashFn content, last_checked := now,
               selector := t.selector } := by
  rw [checkStep_fst]
  exact lookupUrl_updateRecord t.url acc.1 _

/-- The prior state used by the C3 counterexample: one URL with a stored
hash and timestamp. -/
def prevStateC3 : List (String × PageRecord) :=
  [("u", { name := "n", hash := "oldhash", last_checked := "t0", selector := none })]

/-- C3, counterexample.  Two runs over the same prior state whose current
contents differ (`"newA"` vs `"newB"`, hence different current snapshots
and different prior/current diffs) emit EQUAL change events — so the
emitted event cannot contain a diff between the prior and current
snapshots; it is fully determined by name, URL, and prior timestamp. -/
theorem change_event_carries_no_diff :
    (monitor_websites id "t1" prevStateC3
        [({ url := "u", name := "n", selector := none }, some "newA")]).2
      = (monitor_websites id "t1" prevStateC3
          [({ url := "u", name := "n", selector := none }, some "newB")]).2
    ∧ ("newA" : String) ≠ "newB" :=
  ⟨rfl, by decide⟩

/-- C3, amended.  Every ChangeEvent emitted for a URL whose hash differs
from the stored one contains exactly the target's name, the URL, and the
prior check timestamp — and nothing else: the run's event list is precisely
the per-target list of such triples (no diff is computed or included; the
prior state stores no snapshot that could be diffed). -/
theorem monitor_events_characterization (hashFn : String → String) (now : String)
    (previous : List (String × PageRecord))
    (targets : List (Target × Option String)) :
    (monitor_websites hashFn now previous targets).2
      = targets.filterMap (eventFor hashFn previous) := by
  unfold monitor_websites
  rw [monitor_foldl_events]
  rfl

/-- C5, counterexample.  On the claimed input the formatter's output is
`"Marseille Vs LFC ‚Äî 21 Jan ‚Äî 8:00pm"` — the separator is the source
file's literal three-character mojibake sequence U+201A U+00C4 U+00EE, not
the em dash U+2014 — so the output is not exactly the claimed string
`"Marseille Vs LFC — 21 Jan — 8:00pm"`. -/
theorem slug_title_not_em_dash :
    clean_match_title_from_slug "marseille-v-liverpool-fc-21-jan-2026-0800pm-524"
      = some "Marseille Vs LFC ‚Äî 21 Jan ‚Äî 8:00pm"
    ∧ ("Marseille Vs LFC ‚Äî 21 Jan ‚Äî 8:00pm" : String)
      ≠ "Marseille Vs LFC — 21 Jan — 8:00pm" :=
  ⟨by decide, by decide⟩

/-- C5, amended.  The slug title formatter maps
`"marseille-v-liverpool-fc-21-jan-2026-0800pm-524"` to exactly
`"Marseille Vs LFC ‚Äî 21 Jan ‚Äî 8:00pm"`: trailing numeric id stripped,
teams title-cased, `" v "` expanded to `" vs "`, `"liverpool fc"` collapsed
to `"LFC"`, the time token `"0800pm"` rendered as `"8:00pm"`, and the
separators being the source's literal mojibake sequence `"‚Äî"` (the
file's corrupted encoding of an em dash). -/
theorem slug_title_concrete :
    clean_match_title_from_slug "marseille-v-liverpool-fc-21-jan-2026-0800pm-524"
      = some "Marseille Vs LFC ‚Äî 21 Jan ‚Äî 8:00pm" := by decide

/-- C9.  A target whose fetch or parse failed (`content is None`) is
skipped for the run: the pass over the target list produces exactly the
state and events of the pass without that target — no record is written for
it, no change event is produced for it, and the remaining targets are
processed as before. -/
theorem failed_fetch_skipped (hashFn : String → String) (now : String)
    (previous : List (String × PageRecord))
    (ts1 ts2 : List (Target × Option String)) (t : Target) :
    monitor_websites hashFn now previous (ts1 ++ (t, none) :: ts2)
      = monitor_websites hashFn now previous (ts1 ++ ts2) := by
  unfold monitor_websites
  rw [List.foldl_append, List.foldl_append, List.foldl_cons]
  rfl

theorem eventFor_eq_some (hashFn : String → String)
    (previous : List (String × PageRecord)) (tc : Target × Option String)
    (e : ChangeEvent) :
    eventFor hashFn previous tc = some e ↔
      ∃ c, tc.2 = some c ∧ ∃ prevRec, lookupUrl tc.1.url previous = some prevRec ∧
        prevRec.hash ≠ hashFn c ∧
        e = { name := tc.1.name, url := tc.1.url, previous_check := prevRec.last_checked } := by
  obtain ⟨t, c⟩ := tc
  cases c with
  | none => simp [eventFor]
  | some content =>
    unfold eventFor
    cases hl : lookupUrl t.url previous with
    | none => simp
    | some prevRec =>
      by_cases hh : prevRec.hash ≠ hashFn content
      · simp only [if_pos hh]
        constructor
        · intro h
          exact ⟨content, rfl, prevRec, rfl, hh, (Option.some.injEq _ _ ▸ h).symm⟩
        · rintro ⟨c, hc, prevRec2, hl2, hh2, he⟩
          obtain rfl : content = c := by injection hc
          obtain rfl : prevRec = prevRec2 := by injection hl2
          rw [he]
      · simp only [if_neg hh]
        constructor
        · intro h; exact absurd h (by simp)
        · rintro ⟨c, hc, prevRec2, hl2, hh2, _⟩
          obtain rfl : content = c := by injection hc
          obtain rfl : prevRec = prevRec2 := by injection hl2
          exact absurd hh2 hh

/-- C7.  A change event for URL `u` is produced if and only if some target
for `u` was fetched successfully, `u` was present in the prior state, and
the current fingerprint differs from the stored one; in particular a URL
absent from the prior state never produces an event. -/
theorem change_event_iff (hashFn : String → String) (now : String)
    (previous : List (String × PageRecord))
    (targets : List (Target × Option String)) (u : String) :
    ((∃ e ∈ (monitor_websites hashFn now previous targets).2, e.url = u) ↔
      ∃ tc ∈ targets, tc.1.url = u ∧ ∃ c, tc.2 = some c ∧
        ∃ prevRec, lookupUrl u previous = some prevRec ∧ prevRec.hash ≠ hashFn c)
    ∧ (lookupUrl u previous = none →
        ¬ ∃ e ∈ (monitor_websites hashFn now previous targets).2, e.url = u) := by
  have hev : (monitor_websites hashFn now previous targets).2
      = targets.filterMap (eventFor hashFn previous) := by
    unfold monitor_websites
    rw [monitor_foldl_events]
    rfl
  have hiff : (∃ e ∈ (monitor_websites hashFn now previous targets).2, e.url = u) ↔
      ∃ tc ∈ targets, tc.1.url = u ∧ ∃ c, tc.2 = some c ∧
        ∃ prevRec, lookupUrl u previous = some prevRec ∧ prevRec.hash ≠ hashFn c := by
    rw [hev]
    constructor
    · rintro ⟨e, he, hurl⟩
      rw [List.mem_filterMap] at he
      obtain ⟨tc, htc, hf⟩ := he
      rw [eventFor_eq_some] at hf
      obtain ⟨c, hc, prevRec, hl, hh, he2⟩ := hf
      have hu : tc.1.url = u := by rw [he2] at hurl; exact hurl
      exact ⟨tc, htc, hu, c, hc, prevRec, by rw [← hu]; exact hl, hh⟩
    · rintro ⟨tc, htc, hu, c, hc, prevRec, hl, hh⟩
      refine ⟨{ name := tc.1.name, url := tc.1.url, previous_check := prevRec.last_checked },
        ?_, hu⟩
      rw [List.mem_filterMap]
      exact ⟨tc, htc, (eventFor_eq_some hashFn previous tc _).mpr
        ⟨c, hc, prevRec, by rw [hu]; exact hl, hh, rfl⟩⟩
  refine ⟨hiff, fun hnone hex => ?_⟩
  obtain ⟨tc, _, _, c, _, prevRec, hl, _⟩ := hiff.mp hex
  rw [hnone] at hl
  exact Option.noConfusion hl

theorem mem_dedupKeepFirst_not_seen (x : String) :
    ∀ (l seen : List String), x ∈ dedupKeepFirst seen l → x ∉ seen := by
  intro l
  induction l with
  | nil => intro seen h; simp [dedupKeepFirst] at h
  | cons a t ih =>
    intro seen h
    unfold dedupKeepFirst at h
    by_cases ha : a ∈ seen
    · rw [if_pos ha] at h
      exact ih seen h
    · rw [if_neg ha] at h
      rcases List.mem_cons.mp h with h | h
      · exact h ▸ ha
      · intro hx
        exact ih (seen ++ [a]) h (List.mem_append_left _ hx)

theorem mem_dedupKeepFirst_mem (x : String) :
    ∀ (l seen : List String), x ∈ dedupKeepFirst seen l → x ∈ l := by
  intro l
  induction l with
  | nil => intro seen h; simp [dedupKeepFirst] at h
  | cons a t ih =>
    intro seen h
    unfold dedupKeepFirst at h
    by_cases ha : a ∈ seen
    · rw [if_pos ha] at h
      exact List.mem_cons_of_mem a (ih seen h)
    · rw [if_neg ha] at h
      rcases List.mem_cons.mp h with h | h
      · exact h ▸ List.mem_cons_self a t
      · exact List.mem_cons_of_mem a (ih (seen ++ [a]) h)

theorem dedupKeepFirst_nodup :
    ∀ (l seen : List String), (dedupKeepFirst seen l).Nodup := by
  intro l
  induction l with
  | nil => intro seen; simp [dedupKeepFirst]
  | cons a t ih =>
    intro seen
    unfold dedupKeepFirst
    by_cases ha : a ∈ seen
    · rw [if_pos ha]
      exact ih seen
    · rw [if_neg ha]
      refine List.nodup_cons.mpr ⟨fun hmem => ?_, ih (seen ++ [a])⟩
      exact mem_dedupKeepFirst_not_seen a t (seen ++ [a]) hmem
        (List.mem_append_right _ (List.mem_singleton.mpr rfl))

theorem discover_foldl (url pat : String) :
    ∀ (hrefs links : List String),
      hrefs.foldl (fun links href =>
          let r := resolveHref url href
          if containsSubstr r pat ∧ r ∉ links then links ++ [r] else links) links
        = links ++ dedupKeepFirst links
            ((hrefs.map (resolveHref url)).filter (fun r => containsSubstr r pat)) := by
  intro hrefs
  induction hrefs with
  | nil => intro links; simp [dedupKeepFirst]
  | cons h t ih =>
    intro links
    rw [List.foldl_cons, List.map_cons, List.filter_cons]
    by_cases hp : containsSubstr (resolveHref url h) pat
    · rw [if_pos hp]
      unfold dedupKeepFirst
      by_cases hm : resolveHref url h ∈ links
      · rw [if_pos hm]
        have hcond : ¬(containsSubstr (resolveHref url h) pat ∧ resolveHref url h ∉ links) :=
          fun hc => hc.2 hm
        simp only [if_neg hcond]
        exact ih links
      · rw [if_neg hm]
        have hcond : containsSubstr (resolveHref url h) pat ∧ resolveHref url h ∉ links :=
          ⟨hp, hm⟩
        simp only [if_pos hcond]
        rw [ih (links ++ [resolveHref url h])]
        simp
    · have hp' : containsSubstr (resolveHref url h) pat = false := by
        revert hp
        cases containsSubstr (resolveHref url h) pat <;> simp
      rw [hp']
      have hcond : ¬(containsSubstr (resolveHref url h) pat ∧ resolveHref url h ∉ links) :=
        fun hc => hp hc.1
      simp only [if_neg hcond]
      exact ih links

/-- C8.  Link discovery returns exactly the first-occurrence deduplication
of the pattern-filtered, resolution-mapped href list: each href appears
only if (after resolving hrefs beginning with `/` against the page's
origin) it contains the pattern as a substring; duplicates are excluded;
first-occurrence order is preserved; and the result has no duplicates. -/
theorem discover_links_characterization (url pat : String) (hrefs : List String) :
    discover_links url pat hrefs
      = dedupKeepFirst []
          ((hrefs.map (resolveHref url)).filter (fun r => containsSubstr r pat))
    ∧ (discover_links url pat hrefs).Nodup
    ∧ ∀ r ∈ discover_links url pat hrefs, containsSubstr r pat = true := by
  have heq : discover_links url pat hrefs
      = dedupKeepFirst []
          ((hrefs.map (resolveHref url)).filter (fun r => containsSubstr r pat)) := by
    unfold discover_links
    rw [discover_foldl]
    simp
  refine ⟨heq, ?_, ?_⟩
  · rw [heq]
    exact dedupKeepFirst_nodup _ []
  · intro r hr
    rw [heq] at hr
    have hmem := mem_dedupKeepFirst_mem r _ [] hr
    exact (List.mem_filter.mp hmem).2

/-- C6, counterexample.  For the slug `"a-v-b-21-jan-2026-evening"` the date
pattern is found and the token two positions after the year, `"evening"`,
does not match four digits plus am/pm — yet the output is
`"A Vs B ‚Äî 21 Jan ‚Äî evening"`: the malformed token is rendered, not
omitted, so the output is not `"{teams} — {day} {Month}"` under either the
claimed em-dash separator or the source's mojibake separator. -/
theorem malformed_time_not_omitted :
    clean_match_title_from_slug "a-v-b-21-jan-2026-evening"
      = some "A Vs B ‚Äî 21 Jan ‚Äî evening"
    ∧ ("A Vs B ‚Äî 21 Jan ‚Äî evening" : String) ≠ "A Vs B — 21 Jan"
    ∧ ("A Vs B ‚Äî 21 Jan ‚Äî evening" : String) ≠ "A Vs B ‚Äî 21 Jan" :=
  ⟨by decide, by decide, by decide⟩

/-- C6, amended.  When a date pattern is found and a non-empty token exists
two positions after the year but does not match four digits plus am/pm,
the formatter does not omit the time portion: it renders
`"{teams} ‚Äî {day} {Month} ‚Äî {token.lower()}"`, appending the malformed
token verbatim in lowercase.  (The time portion is omitted only when no
token exists at that position, or the token is empty.) -/
theorem malformed_time_rendered_verbatim (s : String) (seg day mon tp : List Char) (i : Nat)
    (hseg : (splitOnChar '/' (stripSlashes s.toList)).getLast? = some seg)
    (hidx : findDateIdx (splitOnChar '-' (stripTrailingId seg)) = some i)
    (hday : (splitOnChar '-' (stripTrailingId seg)).get? i = some day)
    (hmon : (splitOnChar '-' (stripTrailingId seg)).get? (i + 1) = some mon)
    (hlen : (splitOnChar '-' (stripTrailingId seg)).length > i + 3)
    (htp : (splitOnChar '-' (stripTrailingId seg)).get? (i + 3) = some tp)
    (hnomatch : matchTime (tp.map Char.toLower) = none)
    (hne : tp.map Char.toLower ≠ []) :
    clean_match_title_from_slug s
      = some (String.mk (teamsRender ((splitOnChar '-' (stripTrailingId seg)).take i)
          ++ emSep ++ (day ++ ' ' :: pyTitle mon) ++ emSep ++ tp.map Char.toLower)) := by
  unfold clean_match_title_from_slug
  rw [hseg]
  simp only [hidx, hday, hmon, if_pos hlen, htp, renderTime, hnomatch, if_pos hne]

/-- Witness for `malformed_time_rendered_verbatim` at the concrete slug
`"a-v-b-21-jan-2026-evening"`. -/
theorem malformed_time_rendered_verbatim_witness :
    clean_match_title_from_slug "a-v-b-21-jan-2026-evening"
      = some "A Vs B ‚Äî 21 Jan ‚Äî evening" := by
  have h := malformed_time_rendered_verbatim "a-v-b-21-jan-2026-evening"
    ("a-v-b-21-jan-2026-evening".toList) ['2','1'] ['j','a','n'] ("evening".toList) 3
    (by decide) (by decide) (by decide) (by decide) (by decide) (by decide)
    (by decide) (by decide)
  rw [h]
  decide

theorem splitOnChar_ne_nil (sep : Char) : ∀ s : List Char, splitOnChar sep s ≠ [] := by
  intro s
  induction s with
  | nil => simp [splitOnChar]
  | cons c cs ih =>
    unfold splitOnChar
    cases h : splitOnChar sep cs with
    | nil => simp
    | cons g gs => by_cases hc : c = sep <;> simp [hc]

/-- C10.  The slug title formatter is total: every Python sequence-indexing
operation it performs is in bounds, so for every input string the embedded
function returns `some` title and never the `none` that models a raised
exception. -/
theorem clean_match_title_total (s : String) :
    (clean_match_title_from_slug s).isSome := by
  unfold clean_match_title_from_slug
  cases hseg : (splitOnChar '/' (stripSlashes s.toList)).getLast? with
  | none =>
    exfalso
    cases hsp : splitOnChar '/' (stripSlashes s.toList) with
    | nil => exact splitOnChar_ne_nil '/' (stripSlashes s.toList) hsp
    | cons g gs =>
      rw [hsp] at hseg
      simp [List.getLast?_eq_none_iff] at hseg
  | some seg =>
    cases hidx : findDateIdx (splitOnChar '-' (stripTrailingId seg)) with
    | none => simp [hidx]
    | some i =>
      have hmem : i ∈ List.range ((splitOnChar '-' (stripTrailingId seg)).length - 2) :=
        List.mem_of_find?_eq_some hidx
      have hi : i + 2 < (splitOnChar '-' (stripTrailingId seg)).length := by
        have := List.mem_range.mp hmem
        omega
      obtain ⟨day, hday⟩ : ∃ a, (splitOnChar '-' (stripTrailingId seg)).get? i = some a :=
        ⟨_, List.get?_eq_get (by omega)⟩
      obtain ⟨mon, hmon⟩ : ∃ a, (splitOnChar '-' (stripTrailingId seg)).get? (i + 1) = some a :=
        ⟨_, List.get?_eq_get (by omega)⟩
      simp only [hidx, hday, hmon]
      by_cases hlen : (splitOnChar '-' (stripTrailingId seg)).length > i + 3
      · obtain ⟨tp, htp⟩ : ∃ a, (splitOnChar '-' (stripTrailingId seg)).get? (i + 3) = some a :=
          ⟨_, List.get?_eq_get (by omega)⟩
        simp only [if_pos hlen, htp]
        split <;> simp
      · simp only [if_neg hlen]
        split <;> simp

/-- Witness for `change_event_iff` at a concrete run: a URL present in the
prior state with a differing fingerprint does produce an event. -/
theorem change_event_iff_witness :
    ∃ e ∈ (monitor_websites id "t1"
        [("u", { name := "n", hash := "h0", last_checked := "t0", selector := none })]
        [({ url := "u", name := "n", selector := none }, some "new")]).2, e.url = "u" :=
  (change_event_iff id "t1"
      [("u", { name := "n", hash := "h0", last_checked := "t0", selector := none })]
      [({ url := "u", name := "n", selector := none }, some "new")] "u").1.mpr
    ⟨({ url := "u", name := "n", selector := none }, some "new"),
      List.mem_singleton.mpr rfl, rfl, "new", rfl,
      { name := "n", hash := "h0", last_checked := "t0", selector := none },
      rfl, by decide⟩
